import Mathlib

/-!
Shallow embedding of the VPhysicsBullet collision-geometry module
(physics_collision.cpp / physics_collision.h) and proofs about it.

Scalars are modelled as exact rationals (ℚ): the claims under study are
structural (which branch is taken, which summand appears, which entry is
returned), not about floating-point rounding, so float literals such as
0.25f or 1/12 are embedded as the corresponding rationals.
-/

/-- Three-component vector, modelling btVector3. -/
structure V3 where
  x : ℚ
  y : ℚ
  z : ℚ
deriving DecidableEq

namespace V3

/-- The zero vector. -/
def zero : V3 := ⟨0, 0, 0⟩

instance : Add V3 := ⟨fun a b => ⟨a.x + b.x, a.y + b.y, a.z + b.z⟩⟩

instance : Sub V3 := ⟨fun a b => ⟨a.x - b.x, a.y - b.y, a.z - b.z⟩⟩

instance : Neg V3 := ⟨fun a => ⟨-a.x, -a.y, -a.z⟩⟩

instance : SMul ℚ V3 := ⟨fun s a => ⟨s * a.x, s * a.y, s * a.z⟩⟩

/-- Component-wise product (btVector3 operator* on two vectors). -/
def cmul (a b : V3) : V3 := ⟨a.x * b.x, a.y * b.y, a.z * b.z⟩

/-- Division of a vector by a scalar (btVector3 operator/). -/
def sdiv (a : V3) (s : ℚ) : V3 := ⟨a.x / s, a.y / s, a.z / s⟩

/-- Dot product. -/
def dot (a b : V3) : ℚ := a.x * b.x + a.y * b.y + a.z * b.z

/-- Cross product. -/
def cross (a b : V3) : V3 :=
  ⟨a.y * b.z - a.z * b.y, a.z * b.x - a.x * b.z, a.x * b.y - a.y * b.x⟩

/-- Scalar triple product a · (b × c) (btVector3::triple). -/
def triple (a b c : V3) : ℚ := dot a (cross b c)

/-- Component-wise absolute value (btVector3::absolute). -/
def absV (a : V3) : V3 := ⟨|a.x|, |a.y|, |a.z|⟩

/-- Squared length (btVector3::length2). -/
def length2 (a : V3) : ℚ := dot a a

/-- Component-wise minimum (btVector3::setMin). -/
def setMin (a b : V3) : V3 := ⟨min a.x b.x, min a.y b.y, min a.z b.z⟩

/-- Component-wise maximum (btVector3::setMax). -/
def setMax (a b : V3) : V3 := ⟨max a.x b.x, max a.y b.y, max a.z b.z⟩

/-- Component access, btVector3 operator[]. -/
def comp (a : V3) : ℕ → ℚ
  | 0 => a.x
  | 1 => a.y
  | _ => a.z

theorem add_def (a b : V3) : a + b = ⟨a.x + b.x, a.y + b.y, a.z + b.z⟩ := rfl

theorem sub_def (a b : V3) : a - b = ⟨a.x - b.x, a.y - b.y, a.z - b.z⟩ := rfl

theorem smul_def (s : ℚ) (a : V3) : s • a = ⟨s * a.x, s * a.y, s * a.z⟩ := rfl

theorem neg_def (a : V3) : -a = ⟨-a.x, -a.y, -a.z⟩ := rfl

theorem zero_smul_eq (a : V3) : (0 : ℚ) • a = zero := by
  simp [smul_def, zero]

theorem zero_add_eq (a : V3) : zero + a = a := by
  simp [add_def, zero]

theorem add_zero_eq (a : V3) : a + zero = a := by
  simp [add_def, zero]

theorem sub_self_eq (a : V3) : a - a = zero := by
  simp [sub_def, zero]

theorem triple_zero_left (b c : V3) : triple zero b c = 0 := by
  simp [triple, dot, zero]

end V3

/-- Sum of a list of vectors (accumulation loops over btVector3). -/
def vsum : List V3 → V3
  | [] => V3.zero
  | v :: rest => v + vsum rest

theorem vsum_nil : vsum [] = V3.zero := rfl

theorem vsum_cons (v : V3) (l : List V3) : vsum (v :: l) = v + vsum l := rfl

/-- CPhysicsCollision::BoxInertia: inertia of a unit-mass solid box with the
given full extents. -/
def BoxInertia (extents : V3) : V3 :=
  let l2 := extents.cmul extents
  ((1 : ℚ) / 12) • V3.mk (l2.y + l2.z) (l2.x + l2.z) (l2.x + l2.y)

/-- CPhysicsCollision::OffsetInertia: parallel-axis translation of an inertia by
an origin offset, optionally taking the component-wise absolute value. -/
def OffsetInertia (inertia origin : V3) (absolute : Bool) : V3 :=
  let o2 := origin.length2
  let newInertia := inertia + V3.mk o2 o2 o2 - origin.cmul origin
  if absolute then newInertia.absV else newInertia

/-- Convex hull primitive (CPhysConvex_Hull): point array, flattened triangle
index array (3 indices per triangle), lazily derived triangle planes (as
normal/offset pairs), per-triangle material overrides (empty when none), and
the collision margin of the shape. -/
structure Hull where
  points : List V3
  triangleIndices : List ℕ
  trianglePlanes : List (V3 × ℚ)
  triangleMaterials : List ℕ
  margin : ℚ

namespace Hull

/-- Point lookup by index. -/
def pt (h : Hull) (i : ℕ) : V3 := h.points.getD i V3.zero

/-- Minimum corner of the shape AABB: component-wise minimum over the points
(accumulated from a large sentinel, as Bullet does), inflated by the margin. -/
def aabbMin (h : Hull) : V3 :=
  h.points.foldl V3.setMin
      ⟨1000000000000000000, 1000000000000000000, 1000000000000000000⟩ -
    ⟨h.margin, h.margin, h.margin⟩

/-- Maximum corner of the shape AABB, inflated by the margin. -/
def aabbMax (h : Hull) : V3 :=
  h.points.foldl V3.setMax
      ⟨-1000000000000000000, -1000000000000000000, -1000000000000000000⟩ +
    ⟨h.margin, h.margin, h.margin⟩

end Hull

/-- Group a flattened index list into triangles of three indices each. -/
def chunk3 : List ℕ → List (ℕ × ℕ × ℕ)
  | i0 :: i1 :: i2 :: rest => (i0, i1, i2) :: chunk3 rest
  | _ => []

/-- Absolute scalar triple product of the tetrahedron edge vectors of a
triangle taken against the reference point. -/
def tetraSixVolume (pts : ℕ → V3) (ref : V3) (t : ℕ × ℕ × ℕ) : ℚ :=
  |V3.triple (pts t.1 - ref) (pts t.2.1 - ref) (pts t.2.2 - ref)|

/-- The volume-weighted centroid contribution of one tetrahedron:
0.25 · tetrahedronSixVolume · (p0 + p1 + p2 + ref). -/
def tetraCenterTerm (pts : ℕ → V3) (ref : V3) (t : ℕ × ℕ × ℕ) : V3 :=
  (((1 : ℚ) / 4) * tetraSixVolume pts ref t) • (pts t.1 + pts t.2.1 + pts t.2.2 + ref)

/-- The inertia contribution of one tetrahedron relative to the mass center
(second loop of CalculateVolumeProperties, with the 0.1/6 factor). -/
def tetraInertiaTerm (pts : ℕ → V3) (massCenter : V3) (t : ℕ × ℕ × ℕ) : V3 :=
  let a := pts t.1 - massCenter
  let b := pts t.2.1 - massCenter
  let c := pts t.2.2 - massCenter
  let i := (|V3.triple a b c| * (((1 : ℚ) / 10) / 6)) •
    (a.cmul a + b.cmul b + c.cmul c + a.cmul b + a.cmul c + b.cmul c)
  V3.mk (i.y + i.z) (i.z + i.x) (i.x + i.y)

/-- CPhysConvex_Hull::CalculateVolumeProperties: returns (volume, mass center,
inertia). The reference point is the first vertex of the first triangle; the
first accumulation loop of the source starts at indexIndex = 3, i.e. skips the
first triangle; the degenerate (volume ≤ 0) branch falls back to the AABB as a
uniform box. -/
def calculateVolumeProperties (h : Hull) : ℚ × V3 × V3 :=
  let pts := h.pt
  let ref := pts (h.triangleIndices.getD 0 0)
  let tris := chunk3 h.triangleIndices
  let sixVolume := (((tris.drop 1).map (tetraSixVolume pts ref)).sum : ℚ)
  let massCenterSum := vsum ((tris.drop 1).map (tetraCenterTerm pts ref))
  let volume := ((1 : ℚ) / 6) * sixVolume
  if 0 < volume then
    let massCenter := massCenterSum.sdiv sixVolume
    let inertiaSum := vsum (tris.map (tetraInertiaTerm pts massCenter))
    (volume, massCenter, (inertiaSum.sdiv volume).absV)
  else
    let massCenter := ((1 : ℚ) / 2) • (h.aabbMin + h.aabbMax)
    (volume, massCenter,
      OffsetInertia (BoxInertia (h.aabbMax - h.aabbMin)) massCenter true)

/-- The six-volume sum as the specification states it: over every triangle of
the hull (including the first one). -/
def specSixVolume (h : Hull) : ℚ :=
  (((chunk3 h.triangleIndices).map
    (tetraSixVolume h.pt (h.pt (h.triangleIndices.getD 0 0)))).sum : ℚ)

/-- The hull volume as the specification states it: (1/6) of the six-volume
sum over every triangle. -/
def specVolume (h : Hull) : ℚ := ((1 : ℚ) / 6) * specSixVolume h

/-- The accumulated centroid sum as the specification states it: over every
triangle of the hull. -/
def specMassCenterSum (h : Hull) : V3 :=
  vsum ((chunk3 h.triangleIndices).map
    (tetraCenterTerm h.pt (h.pt (h.triangleIndices.getD 0 0))))

/-- The contribution of the first triangle to the six-volume and centroid sums
is zero, because the reference point is that triangle's own first vertex; hence
the sums over every triangle equal the sums the source accumulates from the
second triangle on. -/
theorem hull_first_tetra_zero (h : Hull) :
    specSixVolume h =
      ((((chunk3 h.triangleIndices).drop 1).map
        (tetraSixVolume h.pt (h.pt (h.triangleIndices.getD 0 0)))).sum : ℚ) ∧
    specMassCenterSum h =
      vsum (((chunk3 h.triangleIndices).drop 1).map
        (tetraCenterTerm h.pt (h.pt (h.triangleIndices.getD 0 0)))) := by
  match hl : h.triangleIndices with
  | [] => simp [specSixVolume, specMassCenterSum, hl, chunk3]
  | [i0] => simp [specSixVolume, specMassCenterSum, hl, chunk3]
  | [i0, i1] => simp [specSixVolume, specMassCenterSum, hl, chunk3]
  | i0 :: i1 :: i2 :: rest =>
    have h6 : tetraSixVolume h.pt (h.pt i0) (i0, i1, i2) = 0 := by
      simp [tetraSixVolume, V3.sub_self_eq, V3.triple_zero_left]
    have hc : tetraCenterTerm h.pt (h.pt i0) (i0, i1, i2) = V3.zero := by
      simp [tetraCenterTerm, h6, V3.zero_smul_eq]
    simp [specSixVolume, specMassCenterSum, hl, chunk3, h6, hc, vsum_cons,
      V3.zero_add_eq]

/-- C4: the first volume/mass-center query on a hull computes the volume as
(1/6) times the sum, over every triangle, of the absolute scalar triple
product of the tetrahedron edge vectors against the reference point (the
first vertex of the first triangle); with positive volume the mass center is
the accumulated 0.25·sixVolume·(p0+p1+p2+ref) sum divided by the six-volume
sum; with volume zero or negative the mass center becomes the AABB midpoint
and the inertia the box inertia of the AABB translated by the parallel-axis
offset. -/
theorem hull_volume_properties (h : Hull) :
    (calculateVolumeProperties h).1 = specVolume h ∧
    (0 < specVolume h →
      (calculateVolumeProperties h).2.1 =
        (specMassCenterSum h).sdiv (specSixVolume h)) ∧
    (specVolume h ≤ 0 →
      (calculateVolumeProperties h).2.1 = ((1 : ℚ) / 2) • (h.aabbMin + h.aabbMax) ∧
      (calculateVolumeProperties h).2.2 =
        OffsetInertia (BoxInertia (h.aabbMax - h.aabbMin))
          (((1 : ℚ) / 2) • (h.aabbMin + h.aabbMax)) true) := by
  obtain ⟨h6, hc⟩ := hull_first_tetra_zero h
  simp only [calculateVolumeProperties]
  rw [← h6, ← hc, show ((1 : ℚ) / 6) * specSixVolume h = specVolume h from rfl]
  by_cases hpos : 0 < specVolume h
  · simp [hpos, not_lt.mpr (le_of_lt hpos)]
  · have hle : specVolume h ≤ 0 := not_lt.mp hpos
    simp [hpos, hle]

/-- Absolute signed distance from a point to a triangle plane, as computed by
GetTriangleMaterialIndex: |plane · point − plane.w|. -/
def planeDistance (plane : V3 × ℚ) (point : V3) : ℚ :=
  |V3.dot plane.1 point - plane.2|

/-- Body of the scan loop of GetTriangleMaterialIndex: replace the best
(index, distance) pair when the candidate triangle plane is strictly closer. -/
def gtmiStep (planes : List (V3 × ℚ)) (point : V3) (best : ℕ × ℚ) (ti : ℕ) :
    ℕ × ℚ :=
  let d := planeDistance (planes.getD ti (V3.zero, 0)) point
  if d < best.2 then (ti, d) else best

/-- The scan loop of GetTriangleMaterialIndex, with explicit fuel. The source
guard is `for (triangleIndex = 1; triangleCount < triangleIndex; ...)`: the
loop continues only while triangleCount < triangleIndex. -/
def gtmiLoop (planes : List (V3 × ℚ)) (point : V3) (count : ℕ) :
    ℕ → ℕ → ℕ × ℚ → ℕ × ℚ
  | 0, _, best => best
  | fuel + 1, ti, best =>
    if count < ti then
      gtmiLoop planes point count fuel (ti + 1) (gtmiStep planes point best ti)
    else best

/-- CPhysConvex_Hull::GetTriangleMaterialIndex: 0 when the hull has no
per-triangle materials; otherwise the material of the triangle selected by the
scan loop started at triangleIndex = 1 with triangle 0 as the initial best. -/
def getTriangleMaterialIndex (h : Hull) (point : V3) : ℕ :=
  let triangleCount := h.triangleMaterials.length
  if triangleCount = 0 then 0
  else
    let best0 : ℕ × ℚ :=
      (0, planeDistance (h.trianglePlanes.getD 0 (V3.zero, 0)) point)
    let result := gtmiLoop h.trianglePlanes point triangleCount triangleCount 1 best0
    h.triangleMaterials.getD result.1 0

/-- The triangle whose plane has the smallest absolute signed distance to the
point, minimized over all triangles (first minimum wins), following the
specification wording. -/
def nearestTriangle (planes : List (V3 × ℚ)) (point : V3) (count : ℕ) : ℕ :=
  (List.range count).foldl (fun best ti =>
    if planeDistance (planes.getD ti (V3.zero, 0)) point <
        planeDistance (planes.getD best (V3.zero, 0)) point then ti else best) 0

/-- The material lookup result the specification describes: the material of the
nearest-plane triangle. -/
def specTriangleMaterial (h : Hull) (point : V3) : ℕ :=
  h.triangleMaterials.getD
    (nearestTriangle h.trianglePlanes point h.triangleMaterials.length) 0

/-- A hull of two horizontal triangles, one in the plane z = 0 with material 5
and one in the plane z = 10 with material 7. -/
def gtmiHull : Hull :=
  { points := [⟨0, 0, 0⟩, ⟨1, 0, 0⟩, ⟨0, 1, 0⟩, ⟨0, 0, 10⟩, ⟨1, 0, 10⟩, ⟨0, 1, 10⟩]
    triangleIndices := [0, 1, 2, 3, 4, 5]
    trianglePlanes := [(⟨0, 0, 1⟩, 0), (⟨0, 0, 1⟩, 10)]
    triangleMaterials := [5, 7]
    margin := 0 }

/-- C2: refuted on the code. The scan guard `triangleCount < triangleIndex` is
already false at triangleIndex = 1 whenever the hull has materials, so the loop
body never runs and the material of triangle 0 is returned regardless of the
query point. At the point (0,0,10) of gtmiHull, triangle 1's plane is strictly
nearer (distance 0 versus 10), yet the code returns triangle 0's material 5
instead of 7. -/
theorem material_lookup_ignores_nearest_plane :
    getTriangleMaterialIndex gtmiHull ⟨0, 0, 10⟩ = 5 ∧
    specTriangleMaterial gtmiHull ⟨0, 0, 10⟩ = 7 ∧
    planeDistance (gtmiHull.trianglePlanes.getD 1 (V3.zero, 0)) ⟨0, 0, 10⟩ <
      planeDistance (gtmiHull.trianglePlanes.getD 0 (V3.zero, 0)) ⟨0, 0, 10⟩ := by
  refine ⟨?_, ?_, ?_⟩
  · norm_num [getTriangleMaterialIndex, gtmiHull, gtmiLoop]
  · norm_num [specTriangleMaterial, nearestTriangle, gtmiHull, planeDistance,
      V3.dot, List.range_succ]
  · norm_num [gtmiHull, planeDistance, V3.dot]

/-- Ownership tag of a convex primitive (CPhysConvex::Owner). -/
inductive ConvexOwner
  | game
  | compound
  | internal
deriving DecidableEq

/-- CPhysicsCollision::ConvexFree: the primitive is deleted exactly when it is
still game-owned; otherwise the call leaves it untouched. -/
def convexFreeDeletes (owner : ConvexOwner) : Bool := owner = ConvexOwner.game

/-- The ownership transition the compound constructor applies to every child:
game-owned primitives become compound-owned, all others are left unchanged. -/
def compoundAbsorbOwner (owner : ConvexOwner) : ConvexOwner :=
  if owner = ConvexOwner.game then ConvexOwner.compound else owner

/-- A convex primitive as seen by the compound assembler: origin in the
compound, volume, local mass center, local inertia, shape AABB and ownership
tag. -/
structure ConvexData where
  origin : V3
  volume : ℚ
  massCenter : V3
  inertia : V3
  aabbMin : V3
  aabbMax : V3
  owner : ConvexOwner

/-- The convex data of a box primitive (CPhysConvex_Box) with the given half
extents, origin-in-compound and collision margin: volume 8·hx·hy·hz, mass
center zero (the CPhysConvex base-class GetMassCenter), the closed-form box
inertia of the full extents, and the AABB of the margin-inflated shape. -/
def boxConvexData (halfExtents origin : V3) (margin : ℚ) : ConvexData :=
  { origin := origin
    volume := 8 * halfExtents.x * halfExtents.y * halfExtents.z
    massCenter := V3.zero
    inertia := BoxInertia ((2 : ℚ) • halfExtents)
    aabbMin := -(halfExtents + ⟨margin, margin, margin⟩)
    aabbMax := halfExtents + ⟨margin, margin, margin⟩
    owner := ConvexOwner.game }

/-- Compound collideable (CPhysCollide_Compound): children together with their
current child-transform origins, the cached volume (a negative value is the
unknown sentinel), mass center, inertia, and the attached bodies of the
back-reference circular list, represented by their cycle order starting at the
list head. -/
structure Compound where
  children : List ConvexData
  childOffsets : List V3
  volume : ℚ
  massCenter : V3
  inertia : V3
  bodies : List ℕ

namespace Compound

/-- CPhysCollide_Compound::GetVolume: the cached volume when known, otherwise
the sum of the children's volumes. -/
def getVolume (c : Compound) : ℚ :=
  if c.volume < 0 then (c.children.map ConvexData.volume).sum else c.volume

/-- Lower corner of the compound shape AABB: union of the child AABBs
translated by the child transform origins. -/
def aabbMin (c : Compound) : V3 :=
  (List.zip c.children c.childOffsets).foldl
    (fun acc p => V3.setMin acc (p.1.aabbMin + p.2))
    ⟨1000000000000000000, 1000000000000000000, 1000000000000000000⟩

/-- Upper corner of the compound shape AABB. -/
def aabbMax (c : Compound) : V3 :=
  (List.zip c.children c.childOffsets).foldl
    (fun acc p => V3.setMax acc (p.1.aabbMax + p.2))
    ⟨-1000000000000000000, -1000000000000000000, -1000000000000000000⟩

/-- CPhysCollide_Compound::CalculateInertia. The source guard is
`if (volume >= 0)`: the branch that sums the children's offset inertias and
divides by the total volume is taken for every nonnegative volume, zero
included; the box-approximation branch requires a negative volume. -/
def calculateInertia (c : Compound) : V3 :=
  let volume := c.getVolume
  if 0 ≤ volume then
    let s := vsum ((List.zip c.children c.childOffsets).map (fun p =>
      p.1.volume • OffsetInertia p.1.inertia p.2 false))
    (s.sdiv volume).absV
  else
    OffsetInertia (BoxInertia (c.aabbMax - c.aabbMin))
      (((1 : ℚ) / 2) • (c.aabbMin + c.aabbMax)) true

end Compound

/-- CPhysCollide::NotifyObjectsOfMassCenterChange: the do-while traversal of
the circular reference list starts at the head and stops when it is back at
the head, so it calls NotifyMassCenterChanged once per node of the cycle,
passing the old mass center; an empty list produces no calls. The produced
notification events are returned in traversal order. -/
def notifyBodies (bodies : List ℕ) (oldMassCenter : V3) : List (ℕ × V3) :=
  bodies.map (fun b => (b, oldMassCenter))

/-- CPhysCollide_Compound::CPhysCollide_Compound(pConvex, convexCount): sums
the child volumes, computes the volume-weighted mass center (falling back to
the midpoint of the union of the children's world AABBs when the total volume
is not positive), absorbs game-owned children, sets every child transform
origin to child origin − mass center, and eagerly calculates the inertia. -/
def mkCompound (convexes : List ConvexData) (bodies : List ℕ) : Compound :=
  let volume := (convexes.map ConvexData.volume).sum
  let weighted := vsum (convexes.map (fun c => c.volume • (c.origin + c.massCenter)))
  let massCenter :=
    if 0 < volume then weighted.sdiv volume
    else
      let aabbMin := convexes.foldl (fun acc c => V3.setMin acc (c.aabbMin + c.origin))
        ⟨1000000000000000000, 1000000000000000000, 1000000000000000000⟩
      let aabbMax := convexes.foldl (fun acc c => V3.setMax acc (c.aabbMax + c.origin))
        ⟨-1000000000000000000, -1000000000000000000, -1000000000000000000⟩
      ((1 : ℚ) / 2) • (aabbMin + aabbMax)
  let base : Compound :=
    { children := convexes.map (fun c => { c with owner := compoundAbsorbOwner c.owner })
      childOffsets := convexes.map (fun c => c.origin - massCenter)
      volume := volume
      massCenter := massCenter
      inertia := V3.zero
      bodies := bodies }
  { base with inertia := base.calculateInertia }

/-- CPhysCollide_Compound::SetMassCenter: record the old mass center, store the
new one, rewrite every child transform origin as child origin − new center,
recalculate the local AABB (derived in this model) and the inertia, and then
notify the attached bodies of the old mass center. Returns the updated
compound together with the notification events. -/
def setMassCenter (c : Compound) (massCenter : V3) : Compound × List (ℕ × V3) :=
  let oldMassCenter := c.massCenter
  let updated : Compound := { c with
    massCenter := massCenter
    childOffsets := c.children.map (fun ch => ch.origin - massCenter) }
  ({ updated with inertia := updated.calculateInertia },
    notifyBodies c.bodies oldMassCenter)

/-- A degenerate convex child: zero volume, unit child AABB. -/
def zeroVolumeChild : ConvexData :=
  { origin := V3.zero
    volume := 0
    massCenter := V3.zero
    inertia := ⟨1, 1, 1⟩
    aabbMin := V3.zero
    aabbMax := ⟨1, 1, 1⟩
    owner := ConvexOwner.compound }

/-- A compound whose only child is fully degenerate (zero volume), with a unit
child AABB; the cached volume holds the unknown sentinel. -/
def zeroVolumeCompound : Compound :=
  { children := [zeroVolumeChild]
    childOffsets := [V3.zero]
    volume := -1
    massCenter := V3.zero
    inertia := V3.zero
    bodies := [] }

/-- C3: refuted on the code. With total volume zero the guard `volume >= 0` of
CalculateInertia still selects the normalization branch, so the inertia sum is
divided by the zero total volume (in this rational model division by zero
collapses the result to the zero vector) and the box-approximation fallback —
which would give a nonzero inertia here — is not taken; the fallback branch is
reachable only for a negative volume, which a sum of child volumes never is. -/
theorem compound_zero_volume_inertia_divides :
    Compound.getVolume zeroVolumeCompound = 0 ∧
    Compound.calculateInertia zeroVolumeCompound = V3.zero ∧
    Compound.calculateInertia zeroVolumeCompound ≠
      OffsetInertia
        (BoxInertia (Compound.aabbMax zeroVolumeCompound -
          Compound.aabbMin zeroVolumeCompound))
        (((1 : ℚ) / 2) • (Compound.aabbMin zeroVolumeCompound +
          Compound.aabbMax zeroVolumeCompound)) true := by
  refine ⟨?_, ?_, ?_⟩
  · norm_num [Compound.getVolume, zeroVolumeCompound, zeroVolumeChild]
  · norm_num [Compound.calculateInertia, Compound.getVolume, zeroVolumeCompound,
      zeroVolumeChild, vsum, OffsetInertia, V3.smul_def, V3.sdiv, V3.absV, V3.add_def, V3.sub_def,
      V3.cmul, V3.length2, V3.dot, V3.zero]
  · norm_num [Compound.calculateInertia, Compound.getVolume, Compound.aabbMin,
      Compound.aabbMax, zeroVolumeCompound, zeroVolumeChild, vsum, OffsetInertia, BoxInertia,
      V3.smul_def, V3.sdiv, V3.absV, V3.add_def, V3.sub_def, V3.cmul,
      V3.length2, V3.dot, V3.zero, V3.setMin, V3.setMax, min_def, max_def,
      abs_of_nonneg]

/-- C6: SetMassCenter sets every child transform origin to the child's
origin-in-compound minus the new center, stores the new center, recomputes the
inertia for the updated offsets (the compound bounds are derived from children
and offsets in this model, hence recomputed as well), and produces exactly one
notification per attached body, each carrying the mass center the compound
had immediately before the call. -/
theorem set_mass_center_behaviour (c : Compound) (newCenter : V3)
    (hnodup : c.bodies.Nodup) :
    (setMassCenter c newCenter).1.childOffsets =
      c.children.map (fun ch => ch.origin - newCenter) ∧
    (setMassCenter c newCenter).1.massCenter = newCenter ∧
    (setMassCenter c newCenter).1.inertia =
      Compound.calculateInertia
        { c with massCenter := newCenter,
                 childOffsets := c.children.map (fun ch => ch.origin - newCenter) } ∧
    (setMassCenter c newCenter).2 = notifyBodies c.bodies c.massCenter ∧
    ∀ b ∈ c.bodies,
      ((setMassCenter c newCenter).2.map Prod.fst).count b = 1 := by
  refine ⟨rfl, rfl, rfl, rfl, ?_⟩
  intro b hb
  have hmap : (setMassCenter c newCenter).2.map Prod.fst = c.bodies := by
    show (c.bodies.map (fun x : ℕ => (x, c.massCenter))).map Prod.fst = c.bodies
    rw [List.map_map]
    exact List.map_id c.bodies
  rw [hmap, List.count_eq_one_of_mem hnodup hb]

/-- A compound of two unit boxes at opposite origins with two attached bodies,
used to instantiate the SetMassCenter theorem. -/
def demoCompound : Compound :=
  mkCompound [boxConvexData ⟨(1 : ℚ)/2, (1 : ℚ)/2, (1 : ℚ)/2⟩ ⟨2, 0, 0⟩ 0,
    boxConvexData ⟨(1 : ℚ)/2, (1 : ℚ)/2, (1 : ℚ)/2⟩ ⟨-2, 0, 0⟩ 0] [1, 2]

/-- Witness for C6: the two attached bodies of demoCompound are distinct, and
the mass-center mutation notifies each of them exactly once with the previous
center of mass. -/
theorem set_mass_center_behaviour_witness :
    demoCompound.bodies.Nodup ∧
    ∀ b ∈ demoCompound.bodies,
      ((setMassCenter demoCompound ⟨1, 2, 3⟩).2.map Prod.fst).count b = 1 :=
  ⟨by decide, (set_mass_center_behaviour demoCompound ⟨1, 2, 3⟩ (by decide)).2.2.2.2⟩

/-- The parallel-axis correction term the specification names: (|d|²)·𝟙 − d⊗d
in the diagonal approximation. -/
def parallelCorrection (d : V3) : V3 :=
  V3.mk d.length2 d.length2 d.length2 - d.cmul d

/-- OffsetInertia without the absolute value adds exactly the parallel-axis
correction to the inertia. -/
theorem offsetInertia_eq_add_correction (inertia d : V3) :
    OffsetInertia inertia d false = inertia + parallelCorrection d := by
  simp only [OffsetInertia, parallelCorrection, V3.add_def, V3.sub_def, V3.cmul,
    V3.length2, V3.dot, Bool.false_eq_true, if_false]
  simp only [V3.mk.injEq]
  refine ⟨by ring, by ring, by ring⟩

/-- C8: a compound assembled from two unit boxes whose origins are symmetric
about the origin has its mass center at the origin, and its inertia equals the
two box inertias plus the parallel-axis corrections for both offsets, summed
and divided by the total volume 2, component-wise absolute — the assembler's
combination formula. -/
theorem symmetric_unit_box_compound (d : V3) (margin : ℚ) :
    (mkCompound [boxConvexData ⟨(1 : ℚ)/2, (1 : ℚ)/2, (1 : ℚ)/2⟩ d margin,
      boxConvexData ⟨(1 : ℚ)/2, (1 : ℚ)/2, (1 : ℚ)/2⟩ (-d) margin] []).massCenter =
      V3.zero ∧
    (mkCompound [boxConvexData ⟨(1 : ℚ)/2, (1 : ℚ)/2, (1 : ℚ)/2⟩ d margin,
      boxConvexData ⟨(1 : ℚ)/2, (1 : ℚ)/2, (1 : ℚ)/2⟩ (-d) margin] []).inertia =
      (((2 : ℚ) • BoxInertia ⟨1, 1, 1⟩ +
        (parallelCorrection d + parallelCorrection (-d))).sdiv 2).absV := by
  constructor
  · simp [mkCompound, boxConvexData, vsum, V3.smul_def, V3.add_def, V3.neg_def,
      V3.sdiv, V3.zero, V3.mk.injEq]
  · simp [mkCompound, boxConvexData, Compound.calculateInertia,
      Compound.getVolume, vsum, OffsetInertia, parallelCorrection, BoxInertia,
      V3.smul_def, V3.add_def, V3.sub_def, V3.neg_def, V3.sdiv, V3.absV,
      V3.cmul, V3.length2, V3.dot, V3.zero, V3.mk.injEq]
    norm_num
    refine ⟨?_, ?_, ?_⟩ <;> congr 1 <;> ring

/-- C9: ConvexFree deallocates a primitive exactly when its tag is still
game-owned; compound-owned and internally-owned primitives are left untouched;
the compound constructor maps every child tag through compoundAbsorbOwner,
which moves only game-owned tags (to compound ownership) and fixes every tag
that has already left the game-owned state. -/
theorem convex_ownership_discipline :
    (∀ o : ConvexOwner, convexFreeDeletes o = true ↔ o = ConvexOwner.game) ∧
    (∀ o : ConvexOwner, o ≠ ConvexOwner.game → compoundAbsorbOwner o = o) ∧
    (∀ convexes bodies,
      (mkCompound convexes bodies).children.map ConvexData.owner =
        convexes.map (fun c => compoundAbsorbOwner c.owner)) := by
  refine ⟨?_, ?_, ?_⟩
  · intro o
    cases o <;> simp [convexFreeDeletes]
  · intro o ho
    cases o <;> simp_all [compoundAbsorbOwner]
  · intro convexes bodies
    show (convexes.map (fun c => { c with owner := compoundAbsorbOwner c.owner })).map
        ConvexData.owner = convexes.map (fun c => compoundAbsorbOwner c.owner)
    rw [List.map_map]
    rfl

/-- Witness for C9: an internally-owned primitive is not game-owned, is not
retagged by compound absorption (and hence is never freed by ConvexFree). -/
theorem convex_ownership_discipline_witness :
    ConvexOwner.internal ≠ ConvexOwner.game ∧
      compoundAbsorbOwner ConvexOwner.internal = ConvexOwner.internal :=
  ⟨by decide, convex_ownership_discipline.2.1 ConvexOwner.internal (by decide)⟩

/-- A cached box compound of the shape cache: the half extents of its single
child box and that box's origin in the compound. -/
structure CachedBox where
  halfExtents : V3
  origin : V3
deriving DecidableEq

/-- One cache entry examined by the component loop of CreateBBox, mirrored
from the source: a difference beyond the threshold in either the half extents
or the origin at the current component discards the entry (`cacheCompound =
nullptr; break;`); otherwise the `if (cacheCompound != nullptr) return` that
sits inside the component loop fires at the end of that same iteration. Every
path through the loop body therefore terminates the loop at component 0:
components 1 and 2 are never examined. Returns true when the entry is
returned as a cache hit. -/
def bboxEntryScan (threshold : ℚ) (e : CachedBox) (halfExtents origin : V3) :
    Bool :=
  if |e.halfExtents.x - halfExtents.x| > threshold ∨
      |e.origin.x - origin.x| > threshold then false
  else true

/-- The outer cache scan of CreateBBox over the entries, most recently added
first; the first entry whose scan returns the compound wins. -/
def bboxCacheScan (threshold : ℚ) (halfExtents origin : V3) :
    List CachedBox → Option CachedBox
  | [] => none
  | e :: rest =>
    if bboxEntryScan threshold e halfExtents origin then some e
    else bboxCacheScan threshold halfExtents origin rest

/-- CPhysicsCollision::CreateBBox. Positions are taken already converted to
internal units (the legacy-to-internal conversion is a fixed injective linear
map applied identically to every request, so it is modelled away); the
threshold parameter stands for HL2BULLET(0.1f). Returns none for degenerate
bounds; otherwise (hitFromCache?, the returned box compound, the updated
cache). -/
def createBBox (threshold : ℚ) (cache : List CachedBox) (mins maxs : V3) :
    Option (Bool × CachedBox × List CachedBox) :=
  if mins = maxs then none
  else
    let halfExtents := ((1 : ℚ) / 2) • (maxs - mins).absV
    let origin := ((1 : ℚ) / 2) • (mins + maxs)
    match bboxCacheScan threshold halfExtents origin cache.reverse with
    | some e => some (true, e, cache)
    | none => some (false, ⟨halfExtents, origin⟩, cache ++ [⟨halfExtents, origin⟩])

/-- CPhysicsCollision::BBoxToConvex: the child box of the compound CreateBBox
returns, or none. -/
def bboxToConvex (threshold : ℚ) (cache : List CachedBox) (mins maxs : V3) :
    Option CachedBox :=
  (createBBox threshold cache mins maxs).map (fun r => r.2.1)

/-- CPhysicsCollision::BBoxToCollide: the compound CreateBBox returns, or
none. -/
def bboxToCollide (threshold : ℚ) (cache : List CachedBox) (mins maxs : V3) :
    Option CachedBox :=
  (createBBox threshold cache mins maxs).map (fun r => r.2.1)

/-- A cache entry matches a request in the sense of the specification when
both the half-extent difference and the origin difference are within the
threshold on all three axes. -/
def specBBoxMatches (threshold : ℚ) (e : CachedBox) (halfExtents origin : V3) :
    Prop :=
  (|e.halfExtents.x - halfExtents.x| ≤ threshold ∧
    |e.origin.x - origin.x| ≤ threshold) ∧
  (|e.halfExtents.y - halfExtents.y| ≤ threshold ∧
    |e.origin.y - origin.y| ≤ threshold) ∧
  (|e.halfExtents.z - halfExtents.z| ≤ threshold ∧
    |e.origin.z - origin.z| ≤ threshold)

instance (threshold : ℚ) (e : CachedBox) (halfExtents origin : V3) :
    Decidable (specBBoxMatches threshold e halfExtents origin) := by
  unfold specBBoxMatches
  infer_instance

/-- C1: refuted on the code. With a cached unit box at the origin and a
request for half extents (1, 2, 1) at the origin — differing by 1, far beyond
the threshold 1/400, on the second axis — CreateBBox still returns the cached
entry as a hit, because the return statement inside the component loop fires
after checking component 0 alone; the specification-side matcher rejects the
entry, and no new compound is allocated even though the claim requires a
distinct one. -/
theorem bbox_cache_hit_checks_first_axis_only :
    createBBox ((1 : ℚ) / 400) [⟨⟨1, 1, 1⟩, V3.zero⟩] ⟨-1, -2, -1⟩ ⟨1, 2, 1⟩ =
      some (true, ⟨⟨1, 1, 1⟩, V3.zero⟩, [⟨⟨1, 1, 1⟩, V3.zero⟩]) ∧
    ¬ specBBoxMatches ((1 : ℚ) / 400) ⟨⟨1, 1, 1⟩, V3.zero⟩
      (((1 : ℚ) / 2) • ((⟨1, 2, 1⟩ : V3) - ⟨-1, -2, -1⟩).absV)
      (((1 : ℚ) / 2) • ((⟨-1, -2, -1⟩ : V3) + ⟨1, 2, 1⟩)) := by
  constructor
  · norm_num [createBBox, bboxCacheScan, bboxEntryScan, V3.mk.injEq,
      V3.smul_def, V3.sub_def, V3.add_def, V3.absV, V3.zero, List.reverse]
  · norm_num [specBBoxMatches, V3.smul_def, V3.sub_def, V3.add_def, V3.absV,
      V3.zero]

/-- C10: for coincident bound vectors the box construction entry points all
return no result, whatever the cache holds. -/
theorem degenerate_bbox_returns_none (threshold : ℚ) (cache : List CachedBox)
    (v : V3) :
    createBBox threshold cache v v = none ∧
    bboxToConvex threshold cache v v = none ∧
    bboxToCollide threshold cache v v = none := by
  refine ⟨?_, ?_, ?_⟩ <;> simp [createBBox, bboxToConvex, bboxToCollide]

/-- Little-endian base-256 digits of a value, exactly w bytes (a fixed-width
store truncates higher bits). -/
def bytesLE : ℕ → ℕ → List ℕ
  | 0, _ => []
  | w + 1, v => v % 256 :: bytesLE w (v / 256)

/-- Assemble a byte list in little-endian order. -/
def asmLE : List ℕ → ℕ
  | [] => 0
  | b :: rest => b + 256 * asmLE rest

/-- Serialize one multi-byte field of the legacy format: the value's bytes in
native order, reversed when the buffer is produced in the foreign byte
order. -/
def encField (swap : Bool) (w v : ℕ) : List ℕ :=
  if swap then (bytesLE w v).reverse else bytesLE w v

/-- Serialize a (width, value) field list into a byte buffer. -/
def encFields (swap : Bool) : List (ℕ × ℕ) → List ℕ
  | [] => []
  | f :: rest => encField swap f.1 f.2 ++ encFields swap rest

/-- Read one w-byte field at a byte offset of a buffer. A field of a
foreign-order buffer has its bytes reversed into a scratch copy before the
value is assembled (CByteswap::SwapBufferToTargetEndian over the record's byte
swap data description); a native-order buffer is read directly. -/
def readField (swap : Bool) (buf : List ℕ) (off w : ℕ) : ℕ :=
  let bs := (buf.drop off).take w
  asmLE (if swap then bs.reverse else bs)

theorem bytesLE_length (w v : ℕ) : (bytesLE w v).length = w := by
  induction w generalizing v with
  | zero => rfl
  | succ w ih => simp [bytesLE, ih]

theorem encField_length (swap : Bool) (w v : ℕ) :
    (encField swap w v).length = w := by
  cases swap <;> simp [encField, bytesLE_length]

theorem encFields_length (swap : Bool) (fs : List (ℕ × ℕ)) :
    (encFields swap fs).length = (fs.map Prod.fst).sum := by
  induction fs with
  | nil => rfl
  | cons f rest ih => simp [encFields, encField_length, ih]

theorem asmLE_bytesLE (w v : ℕ) : asmLE (bytesLE w v) = v % 256 ^ w := by
  induction w generalizing v with
  | zero => simp [bytesLE, asmLE, Nat.mod_one]
  | succ w ih =>
    simp only [bytesLE, asmLE, ih]
    rw [pow_succ, show (256 : ℕ) ^ w * 256 = 256 * 256 ^ w from Nat.mul_comm _ _,
      Nat.mod_mul]

theorem readField_append_left (swap : Bool) (A B : List ℕ) (off w : ℕ)
    (h : off + w ≤ A.length) :
    readField swap (A ++ B) off w = readField swap A off w := by
  unfold readField
  rw [List.drop_append_eq_append_drop,
    List.take_append_of_le_length (by simp only [List.length_drop]; omega)]

theorem readField_append_right (swap : Bool) (A B : List ℕ) (off w : ℕ)
    (h : A.length ≤ off) :
    readField swap (A ++ B) off w = readField swap B (off - A.length) w := by
  unfold readField
  rw [List.drop_append_eq_append_drop, List.drop_eq_nil_of_le h,
    List.nil_append]

theorem readField_encField (swap : Bool) (w v : ℕ) (B : List ℕ) :
    readField swap (encField swap w v ++ B) 0 w = v % 256 ^ w := by
  rw [readField_append_left swap _ B 0 w (by simp [encField_length])]
  cases swap with
  | false =>
    simp only [readField, List.drop_zero, encField, Bool.false_eq_true,
      if_false]
    rw [List.take_of_length_le (by simp [bytesLE_length])]
    exact asmLE_bytesLE w v
  | true =>
    simp only [readField, List.drop_zero, encField, if_true]
    rw [List.take_of_length_le (by simp [bytesLE_length]),
      List.reverse_reverse]
    exact asmLE_bytesLE w v

/-- Skipping one serialized field moves the read offset back by its width. -/
theorem readField_after (swap : Bool) (w v : ℕ) (B : List ℕ) (off w2 : ℕ)
    (h : w ≤ off) :
    readField swap (encField swap w v ++ B) off w2 =
      readField swap B (off - w) w2 := by
  rw [readField_append_right swap _ B off w2 (by simp [encField_length]; omega)]
  rw [encField_length]

/-- The five header fields of a serialized compact ledge, in layout order:
c_point_offset, the client_data union word, the packed 32-bit bit-field word
(low 8 bits of flags, then size_div_16 in bits 8..31), the n_triangles short
and the for_future_use short. -/
def headerFields (pointOffset clientData headerBits nTriangles ffu : ℕ) :
    List (ℕ × ℕ) :=
  [(4, pointOffset), (4, clientData), (4, headerBits), (2, nTriangles),
    (2, ffu)]

theorem header_read_po (swap : Bool) (po cd hb nt ffu : ℕ) (B : List ℕ) :
    readField swap (encFields swap (headerFields po cd hb nt ffu) ++ B) 0 4 =
      po % 4294967296 := by
  simp only [headerFields, encFields, List.append_assoc, List.nil_append]
  rw [readField_encField]
  norm_num

theorem header_read_cd (swap : Bool) (po cd hb nt ffu : ℕ) (B : List ℕ) :
    readField swap (encFields swap (headerFields po cd hb nt ffu) ++ B) 4 4 =
      cd % 4294967296 := by
  simp only [headerFields, encFields, List.append_assoc, List.nil_append]
  rw [readField_after swap 4 po _ 4 4 (by norm_num)]
  norm_num [readField_encField]

theorem header_read_hb (swap : Bool) (po cd hb nt ffu : ℕ) (B : List ℕ) :
    readField swap (encFields swap (headerFields po cd hb nt ffu) ++ B) 8 4 =
      hb % 4294967296 := by
  simp only [headerFields, encFields, List.append_assoc, List.nil_append]
  rw [readField_after swap 4 po _ 8 4 (by norm_num),
    readField_after swap 4 cd _ (8 - 4) 4 (by norm_num)]
  norm_num [readField_encField]

theorem header_read_nt (swap : Bool) (po cd hb nt ffu : ℕ) (B : List ℕ) :
    readField swap (encFields swap (headerFields po cd hb nt ffu) ++ B) 12 2 =
      nt % 65536 := by
  simp only [headerFields, encFields, List.append_assoc, List.nil_append]
  rw [readField_after swap 4 po _ 12 2 (by norm_num),
    readField_after swap 4 cd _ (12 - 4) 2 (by norm_num),
    readField_after swap 4 hb _ (12 - 4 - 4) 2 (by norm_num)]
  norm_num [readField_encField]

/-- Field list of a section of 16-byte records of four 32-bit words each:
triangle records carry (bit-field word, edge 0, edge 1, edge 2) and point
records carry (k0, k1, k2, hesse value). -/
def rec4Fields : List (ℕ × ℕ × ℕ × ℕ) → List (ℕ × ℕ)
  | [] => []
  | r :: rest =>
    (4, r.1) :: (4, r.2.1) :: (4, r.2.2.1) :: (4, r.2.2.2) :: rec4Fields rest

theorem readField_skip_rec4 (swap : Bool) (r : ℕ × ℕ × ℕ × ℕ)
    (rs : List (ℕ × ℕ × ℕ × ℕ)) (B : List ℕ) (off w2 : ℕ) (h : 16 ≤ off) :
    readField swap (encFields swap (rec4Fields (r :: rs)) ++ B) off w2 =
      readField swap (encFields swap (rec4Fields rs) ++ B) (off - 16) w2 := by
  simp only [rec4Fields, encFields, List.append_assoc]
  rw [readField_after swap 4 r.1 _ off w2 (by omega),
    readField_after swap 4 r.2.1 _ (off - 4) w2 (by omega),
    readField_after swap 4 r.2.2.1 _ (off - 4 - 4) w2 (by omega),
    readField_after swap 4 r.2.2.2 _ (off - 4 - 4 - 4) w2 (by omega)]
  rw [show off - 4 - 4 - 4 - 4 = off - 16 from by omega]

theorem rec4_head_reads (swap : Bool) (r : ℕ × ℕ × ℕ × ℕ)
    (rs : List (ℕ × ℕ × ℕ × ℕ)) (B : List ℕ) :
    readField swap (encFields swap (rec4Fields (r :: rs)) ++ B) 0 4 =
      r.1 % 4294967296 ∧
    readField swap (encFields swap (rec4Fields (r :: rs)) ++ B) 4 4 =
      r.2.1 % 4294967296 ∧
    readField swap (encFields swap (rec4Fields (r :: rs)) ++ B) 8 4 =
      r.2.2.1 % 4294967296 ∧
    readField swap (encFields swap (rec4Fields (r :: rs)) ++ B) 12 4 =
      r.2.2.2 % 4294967296 := by
  simp only [rec4Fields, encFields, List.append_assoc]
  refine ⟨?_, ?_, ?_, ?_⟩
  · rw [readField_encField]
    norm_num
  · rw [readField_after swap 4 r.1 _ 4 4 (by norm_num)]
    norm_num [readField_encField]
  · rw [readField_after swap 4 r.1 _ 8 4 (by norm_num),
      readField_after swap 4 r.2.1 _ (8 - 4) 4 (by norm_num)]
    norm_num [readField_encField]
  · rw [readField_after swap 4 r.1 _ 12 4 (by norm_num),
      readField_after swap 4 r.2.1 _ (12 - 4) 4 (by norm_num),
      readField_after swap 4 r.2.2.1 _ (12 - 4 - 4) 4 (by norm_num)]
    norm_num [readField_encField]

/-- Reads of the four words of record t of a serialized 16-byte-record
section, by induction over the records. -/
theorem rec4_reads (swap : Bool) (rs : List (ℕ × ℕ × ℕ × ℕ)) (B : List ℕ)
    (t : ℕ) (ht : t < rs.length) :
    readField swap (encFields swap (rec4Fields rs) ++ B) (16 * t) 4 =
      (rs.get ⟨t, ht⟩).1 % 4294967296 ∧
    readField swap (encFields swap (rec4Fields rs) ++ B) (16 * t + 4) 4 =
      (rs.get ⟨t, ht⟩).2.1 % 4294967296 ∧
    readField swap (encFields swap (rec4Fields rs) ++ B) (16 * t + 8) 4 =
      (rs.get ⟨t, ht⟩).2.2.1 % 4294967296 ∧
    readField swap (encFields swap (rec4Fields rs) ++ B) (16 * t + 12) 4 =
      (rs.get ⟨t, ht⟩).2.2.2 % 4294967296 := by
  induction rs generalizing t B with
  | nil => exact absurd ht (by simp)
  | cons r rest ih =>
    cases t with
    | zero => simpa using rec4_head_reads swap r rest B
    | succ t =>
      have ht2 : t < rest.length := by simpa using ht
      have hr := ih B t ht2
      refine ⟨?_, ?_, ?_, ?_⟩
      · rw [readField_skip_rec4 swap r rest B _ 4 (by omega),
          show 16 * (t + 1) - 16 = 16 * t from by omega]
        simpa using hr.1
      · rw [readField_skip_rec4 swap r rest B _ 4 (by omega),
          show 16 * (t + 1) + 4 - 16 = 16 * t + 4 from by omega]
        simpa using hr.2.1
      · rw [readField_skip_rec4 swap r rest B _ 4 (by omega),
          show 16 * (t + 1) + 8 - 16 = 16 * t + 8 from by omega]
        simpa using hr.2.2.1
      · rw [readField_skip_rec4 swap r rest B _ 4 (by omega),
          show 16 * (t + 1) + 12 - 16 = 16 * t + 12 from by omega]
        simpa using hr.2.2.2

/-- The logical content of one serialized compact ledge. A triangle record is
the 4-word tuple (packed bit-field word, edge 0 word, edge 1 word, edge 2
word); a point record is (k0, k1, k2, hesse value) as raw 32-bit patterns.
The serializer lays out the 16-byte header, the triangle records, then the
point array, storing c_point_offset = 16 + 16·triangleCount and size_div_16 =
1 + triangleCount + pointCount, with the flag bits in the low 8 bits of the
packed header word. -/
structure LLedge where
  clientData : ℕ
  flags : ℕ
  ffu : ℕ
  triangles : List (ℕ × ℕ × ℕ × ℕ)
  points : List (ℕ × ℕ × ℕ × ℕ)

/-- Byte offset of the point array from the ledge start. -/
def LLedge.pointOffset (L : LLedge) : ℕ := 16 + 16 * L.triangles.length

/-- Total size of the ledge in 16-byte units. -/
def LLedge.sizeDiv16 (L : LLedge) : ℕ :=
  1 + L.triangles.length + L.points.length

/-- The packed 32-bit bit-field word of the ledge header. -/
def LLedge.headerBits (L : LLedge) : ℕ :=
  L.flags % 256 + 256 * L.sizeDiv16

/-- Serialize a ledge in the given byte order. -/
def encLedge (swap : Bool) (L : LLedge) : List ℕ :=
  encFields swap (headerFields L.pointOffset L.clientData L.headerBits
    L.triangles.length L.ffu) ++
  encFields swap (rec4Fields (L.triangles ++ L.points))

/-- Signed interpretation of a stored 16-bit value (the n_triangles short). -/
def toSigned16 (v : ℕ) : ℤ := if v < 32768 then (v : ℤ) else (v : ℤ) - 65536

/-- The byte-order-normalized n_triangles short of a ledge buffer. -/
def ledgeNTriangles (swap : Bool) (buf : List ℕ) : ℤ :=
  toSigned16 (readField swap buf 12 2)

/-- VCollide_IVP_Compact_Ledge::get_n_points on a ledge buffer: size_div_16
(bits 8..31 of the byte-order-normalized packed header word) minus n_triangles
minus 1. -/
def ledgePointCount (swap : Bool) (buf : List ℕ) : ℤ :=
  ((readField swap buf 8 4 / 256 : ℕ) : ℤ) - ledgeNTriangles swap buf - 1

/-- The hull data CPhysConvex_Hull decodes from a compact ledge: points
(coordinates through the interpretation toF of the stored 32-bit pattern, with
the second and third coordinates negated), per-triangle vertex index triples,
per-triangle material overrides (empty when no triangle carries one), and the
user index taken from the client_data word. -/
structure DecodedHull (α : Type) where
  points : List (α × α × α)
  indices : List (ℕ × ℕ × ℕ)
  materials : List ℕ
  clientData : ℕ
deriving DecidableEq

/-- CPhysConvex_Hull::CreateFromIVPCompactLedge composed with the hull
constructor taking the ledge. Every multi-byte field feeding the geometry is
byte-order-normalized into a scratch copy before use (readField with the
buffer's byte order); the construction fails when the derived point count is
below 3 or the triangle count is not positive; each decoded point negates its
second and third stored coordinates; a triangle's vertex indices are the low
16 bits of its three edge words; a positive material field (bits 24..30 of
the triangle bit-field word) switches the hull to per-triangle materials,
the array staying empty when every override is zero. The user index is set
from `ledge->client_data` read in place — before the header is swapped into
the scratch copy — so it is assembled in native order whatever the buffer's
byte order is. -/
def decodeLedge {α : Type} (toF : ℕ → α) [Neg α] (swap : Bool)
    (buf : List ℕ) : Option (DecodedHull α) :=
  if ledgePointCount swap buf < 3 ∨ ledgeNTriangles swap buf ≤ 0 then none
  else
    let cPointOffset := readField swap buf 0 4
    let triCount := (ledgeNTriangles swap buf).toNat
    let mats := (List.range triCount).map (fun t =>
      readField swap buf (16 + 16 * t) 4 / 16777216 % 128)
    some
      { points := (List.range (ledgePointCount swap buf).toNat).map (fun i =>
          (toF (readField swap buf (cPointOffset + 16 * i) 4),
            -toF (readField swap buf (cPointOffset + 16 * i + 4) 4),
            -toF (readField swap buf (cPointOffset + 16 * i + 8) 4)))
        indices := (List.range triCount).map (fun t =>
          (readField swap buf (16 + 16 * t + 4) 4 % 65536,
            readField swap buf (16 + 16 * t + 8) 4 % 65536,
            readField swap buf (16 + 16 * t + 12) 4 % 65536))
        materials := if mats.all (fun m => m = 0) then [] else mats
        clientData := readField false buf 4 4 }

/-- C7: decoding a single ledge fails (returns no result) exactly when the
derived point count — size_div_16 minus the triangle count minus 1 — is below
3 or the triangle count is not positive; in every other case a hull is
produced whose points keep the first stored coordinate and negate the second
and third stored coordinates. -/
theorem decode_ledge_failure_iff {α : Type} [Neg α] (toF : ℕ → α)
    (swap : Bool) (buf : List ℕ) :
    (decodeLedge toF swap buf = none ↔
      ledgePointCount swap buf < 3 ∨ ledgeNTriangles swap buf ≤ 0) ∧
    ∀ H, decodeLedge toF swap buf = some H →
      H.points =
        (List.range (ledgePointCount swap buf).toNat).map (fun i =>
          (toF (readField swap buf (readField swap buf 0 4 + 16 * i) 4),
            -toF (readField swap buf (readField swap buf 0 4 + 16 * i + 4) 4),
            -toF (readField swap buf
              (readField swap buf 0 4 + 16 * i + 8) 4))) := by
  unfold decodeLedge
  by_cases hc : ledgePointCount swap buf < 3 ∨ ledgeNTriangles swap buf ≤ 0
  · rw [if_pos hc]
    exact ⟨by simp [hc], fun H hH => by cases hH⟩
  · rw [if_neg hc]
    refine ⟨by simp [hc], fun H hH => ?_⟩
    have hDH := Option.some_injective _ hH
    subst hDH
    rfl

/-- A concrete one-triangle, three-point ledge: material override 5 in bits
24..30 of the triangle word, client data 7. -/
def demoLedge : LLedge :=
  { clientData := 7
    flags := 0
    ffu := 0
    triangles := [(83886080, 0, 1, 2)]
    points := [(1, 2, 3, 0), (4, 5, 6, 0), (7, 8, 9, 0)] }

/-- Integer interpretation of stored 32-bit coordinate patterns, for concrete
decoding runs. -/
def toFZ (n : ℕ) : ℤ := (n : ℤ)

/-- The native-order serialization of demoLedge. -/
def demoNativeBuf : List ℕ := encLedge false demoLedge

/-- The hull decoded from the native serialization of demoLedge. -/
def demoDecoded : DecodedHull ℤ :=
  { points := [(1, -2, -3), (4, -5, -6), (7, -8, -9)]
    indices := [(0, 1, 2)]
    materials := [5]
    clientData := 7 }

/-- Witness for C7: the demo buffer decodes to a hull and its points negate
the second and third stored coordinates. -/
theorem decode_ledge_failure_iff_witness :
    decodeLedge toFZ false demoNativeBuf = some demoDecoded ∧
    demoDecoded.points =
      (List.range (ledgePointCount false demoNativeBuf).toNat).map (fun i =>
        (toFZ (readField false demoNativeBuf
            (readField false demoNativeBuf 0 4 + 16 * i) 4),
          -toFZ (readField false demoNativeBuf
            (readField false demoNativeBuf 0 4 + 16 * i + 4) 4),
          -toFZ (readField false demoNativeBuf
            (readField false demoNativeBuf 0 4 + 16 * i + 8) 4))) :=
  ⟨by decide,
    (decode_ledge_failure_iff toFZ false demoNativeBuf).2 demoDecoded
      (by decide)⟩

/-- Header reads of a serialized ledge recover the logical values exactly,
under the size bounds of a well-formed ledge. -/
theorem encLedge_reads (swap : Bool) (L : LLedge)
    (hT : L.triangles.length < 32768) (hS : L.sizeDiv16 < 16777216) :
    readField swap (encLedge swap L) 0 4 = L.pointOffset ∧
    ledgeNTriangles swap (encLedge swap L) = (L.triangles.length : ℤ) ∧
    ledgePointCount swap (encLedge swap L) = (L.points.length : ℤ) := by
  have hpo : readField swap (encLedge swap L) 0 4 = L.pointOffset := by
    unfold encLedge
    rw [header_read_po]
    exact Nat.mod_eq_of_lt (by unfold LLedge.pointOffset; omega)
  have hnt : readField swap (encLedge swap L) 12 2 = L.triangles.length := by
    unfold encLedge
    rw [header_read_nt]
    exact Nat.mod_eq_of_lt (by omega)
  have hhb : readField swap (encLedge swap L) 8 4 = L.headerBits := by
    unfold encLedge
    rw [header_read_hb]
    refine Nat.mod_eq_of_lt ?_
    have hflags : L.flags % 256 < 256 := Nat.mod_lt _ (by norm_num)
    unfold LLedge.headerBits
    omega
  have hNT : ledgeNTriangles swap (encLedge swap L) = (L.triangles.length : ℤ) := by
    unfold ledgeNTriangles
    rw [hnt]
    unfold toSigned16
    rw [if_pos (by omega)]
  refine ⟨hpo, hNT, ?_⟩
  unfold ledgePointCount
  rw [hhb, hNT]
  have hdiv : L.headerBits / 256 = L.sizeDiv16 := by
    unfold LLedge.headerBits
    rw [Nat.add_mul_div_left _ _ (by norm_num : 0 < 256),
      Nat.div_eq_of_lt (Nat.mod_lt _ (by norm_num))]
    omega
  rw [hdiv]
  unfold LLedge.sizeDiv16
  push_cast
  ring

/-- The four word reads of geometry record t of a serialized ledge. -/
theorem encLedge_rec_reads (swap : Bool) (L : LLedge) (t : ℕ)
    (ht : t < (L.triangles ++ L.points).length) :
    readField swap (encLedge swap L) (16 + 16 * t) 4 =
      ((L.triangles ++ L.points).get ⟨t, ht⟩).1 % 4294967296 ∧
    readField swap (encLedge swap L) (16 + 16 * t + 4) 4 =
      ((L.triangles ++ L.points).get ⟨t, ht⟩).2.1 % 4294967296 ∧
    readField swap (encLedge swap L) (16 + 16 * t + 8) 4 =
      ((L.triangles ++ L.points).get ⟨t, ht⟩).2.2.1 % 4294967296 ∧
    readField swap (encLedge swap L) (16 + 16 * t + 12) 4 =
      ((L.triangles ++ L.points).get ⟨t, ht⟩).2.2.2 % 4294967296 := by
  have hrec := rec4_reads swap (L.triangles ++ L.points) [] t ht
  rw [List.append_nil] at hrec
  have hlen : (encFields swap (headerFields L.pointOffset L.clientData
      L.headerBits L.triangles.length L.ffu)).length = 16 := by
    simp [encFields_length, headerFields]
  unfold encLedge
  refine ⟨?_, ?_, ?_, ?_⟩
  · rw [readField_append_right swap _ _ (16 + 16 * t) 4 (by rw [hlen]; omega),
      hlen, show 16 + 16 * t - 16 = 16 * t from by omega]
    exact hrec.1
  · rw [readField_append_right swap _ _ (16 + 16 * t + 4) 4 (by rw [hlen]; omega),
      hlen, show 16 + 16 * t + 4 - 16 = 16 * t + 4 from by omega]
    exact hrec.2.1
  · rw [readField_append_right swap _ _ (16 + 16 * t + 8) 4 (by rw [hlen]; omega),
      hlen, show 16 + 16 * t + 8 - 16 = 16 * t + 8 from by omega]
    exact hrec.2.2.1
  · rw [readField_append_right swap _ _ (16 + 16 * t + 12) 4 (by rw [hlen]; omega),
      hlen, show 16 + 16 * t + 12 - 16 = 16 * t + 12 from by omega]
    exact hrec.2.2.2

/-- Default-lookup version of the record reads of a serialized ledge. -/
theorem encLedge_rec_readsD (swap : Bool) (L : LLedge) (t : ℕ)
    (ht : t < (L.triangles ++ L.points).length) :
    readField swap (encLedge swap L) (16 + 16 * t) 4 =
      ((L.triangles ++ L.points).getD t (0, 0, 0, 0)).1 % 4294967296 ∧
    readField swap (encLedge swap L) (16 + 16 * t + 4) 4 =
      ((L.triangles ++ L.points).getD t (0, 0, 0, 0)).2.1 % 4294967296 ∧
    readField swap (encLedge swap L) (16 + 16 * t + 8) 4 =
      ((L.triangles ++ L.points).getD t (0, 0, 0, 0)).2.2.1 % 4294967296 ∧
    readField swap (encLedge swap L) (16 + 16 * t + 12) 4 =
      ((L.triangles ++ L.points).getD t (0, 0, 0, 0)).2.2.2 % 4294967296 := by
  have h := encLedge_rec_reads swap L t ht
  have hD : (L.triangles ++ L.points).getD t (0, 0, 0, 0) =
      (L.triangles ++ L.points).get ⟨t, ht⟩ := by
    rw [List.getD_eq_getElem _ _ ht, List.get_eq_getElem]
  rw [hD]
  exact h

/-- The point list the decoder recovers, as a function of the logical ledge
content alone. -/
def ledgePointsOf {α : Type} [Neg α] (toF : ℕ → α) (L : LLedge) :
    List (α × α × α) :=
  (List.range L.points.length).map (fun i =>
    (toF ((L.points.getD i (0, 0, 0, 0)).1 % 4294967296),
      -toF ((L.points.getD i (0, 0, 0, 0)).2.1 % 4294967296),
      -toF ((L.points.getD i (0, 0, 0, 0)).2.2.1 % 4294967296)))

/-- The triangle vertex index triples the decoder recovers, as a function of
the logical ledge content alone. -/
def ledgeIndicesOf (L : LLedge) : List (ℕ × ℕ × ℕ) :=
  (List.range L.triangles.length).map (fun t =>
    ((L.triangles.getD t (0, 0, 0, 0)).2.1 % 4294967296 % 65536,
      (L.triangles.getD t (0, 0, 0, 0)).2.2.1 % 4294967296 % 65536,
      (L.triangles.getD t (0, 0, 0, 0)).2.2.2 % 4294967296 % 65536))

/-- The per-triangle material overrides the decoder recovers, as a function of
the logical ledge content alone. -/
def ledgeMaterialsOf (L : LLedge) : List ℕ :=
  let mats := (List.range L.triangles.length).map (fun t =>
    (L.triangles.getD t (0, 0, 0, 0)).1 % 4294967296 / 16777216 % 128)
  if mats.all (fun m => m = 0) then [] else mats

/-- The geometry decoded from a serialized ledge is a function of the logical
content alone, whatever byte order the buffer uses. -/
theorem decodeLedge_encLedge_geometry {α : Type} [Neg α] (toF : ℕ → α)
    (swap : Bool) (L : LLedge) (hT : L.triangles.length < 32768)
    (hS : L.sizeDiv16 < 16777216) :
    (decodeLedge toF swap (encLedge swap L)).map
        (fun H => (H.points, H.indices, H.materials)) =
      if (L.points.length : ℤ) < 3 ∨ (L.triangles.length : ℤ) ≤ 0 then none
      else some (ledgePointsOf toF L, ledgeIndicesOf L, ledgeMaterialsOf L) := by
  obtain ⟨hpo, hNT, hPC⟩ := encLedge_reads swap L hT hS
  simp only [decodeLedge]
  simp only [hpo, hNT, hPC, Int.toNat_natCast]
  by_cases hcond : (L.points.length : ℤ) < 3 ∨ (L.triangles.length : ℤ) ≤ 0
  · rw [if_pos hcond, if_pos hcond]
    rfl
  · rw [if_neg hcond, if_neg hcond]
    have hpts : (List.range L.points.length).map (fun i =>
        (toF (readField swap (encLedge swap L) (L.pointOffset + 16 * i) 4),
          -toF (readField swap (encLedge swap L) (L.pointOffset + 16 * i + 4) 4),
          -toF (readField swap (encLedge swap L) (L.pointOffset + 16 * i + 8) 4))) =
        ledgePointsOf toF L := by
      unfold ledgePointsOf
      refine List.map_congr_left ?_
      intro i hi
      have hiP : i < L.points.length := List.mem_range.mp hi
      have hti : L.triangles.length + i < (L.triangles ++ L.points).length := by
        simp only [List.length_append]
        omega
      obtain ⟨h1, h2, h3, h4⟩ := encLedge_rec_readsD swap L
        (L.triangles.length + i) hti
      have hoff : L.pointOffset + 16 * i = 16 + 16 * (L.triangles.length + i) := by
        unfold LLedge.pointOffset
        ring
      rw [hoff, h1, h2, h3,
        List.getD_append_right L.triangles L.points _ _ (by omega),
        show L.triangles.length + i - L.triangles.length = i from by omega]
    have hidx : (List.range L.triangles.length).map (fun t =>
        (readField swap (encLedge swap L) (16 + 16 * t + 4) 4 % 65536,
          readField swap (encLedge swap L) (16 + 16 * t + 8) 4 % 65536,
          readField swap (encLedge swap L) (16 + 16 * t + 12) 4 % 65536)) =
        ledgeIndicesOf L := by
      unfold ledgeIndicesOf
      refine List.map_congr_left ?_
      intro t ht
      have htT : t < L.triangles.length := List.mem_range.mp ht
      have hti : t < (L.triangles ++ L.points).length := by
        simp only [List.length_append]
        omega
      obtain ⟨h1, h2, h3, h4⟩ := encLedge_rec_readsD swap L t hti
      rw [h2, h3, h4, List.getD_append L.triangles L.points _ _ htT]
    have hmats : (List.range L.triangles.length).map (fun t =>
        readField swap (encLedge swap L) (16 + 16 * t) 4 / 16777216 % 128) =
        (List.range L.triangles.length).map (fun t =>
          (L.triangles.getD t (0, 0, 0, 0)).1 % 4294967296 / 16777216 % 128) := by
      refine List.map_congr_left ?_
      intro t ht
      have htT : t < L.triangles.length := List.mem_range.mp ht
      have hti : t < (L.triangles ++ L.points).length := by
        simp only [List.length_append]
        omega
      obtain ⟨h1, h2, h3, h4⟩ := encLedge_rec_readsD swap L t hti
      rw [h1, List.getD_append L.triangles L.points _ _ htT]
    simp only [ledgeMaterialsOf]
    rw [hpts, hidx, hmats]
    rfl

/-- C5: the geometry part holds — decoding a well-formed serialized ledge in
the foreign byte order yields exactly the point coordinates, triangle vertex
indices and per-triangle material overrides of the native-order decode,
because every field they are read from is byte-order-normalized first. The
clause that every multi-byte field is normalized before being read is refuted:
the user index is set from `ledge->client_data` read in place before the
header is swapped into the scratch copy, so on the foreign-order serialization
of demoLedge (client_data 7) the decoded user index is the byte-swapped
117440512 instead of 7. -/
theorem byte_order_decode_geometry {α : Type} [Neg α] (toF : ℕ → α)
    (L : LLedge) (hT : L.triangles.length < 32768)
    (hS : L.sizeDiv16 < 16777216) :
    ((decodeLedge toF true (encLedge true L)).map
        (fun H => (H.points, H.indices, H.materials)) =
      (decodeLedge toF false (encLedge false L)).map
        (fun H => (H.points, H.indices, H.materials))) ∧
    (decodeLedge toFZ true (encLedge true demoLedge)).map
        DecodedHull.clientData = some 117440512 ∧
    (decodeLedge toFZ false (encLedge false demoLedge)).map
        DecodedHull.clientData = some 7 := by
  refine ⟨?_, by decide, by decide⟩
  rw [decodeLedge_encLedge_geometry toF true L hT hS,
    decodeLedge_encLedge_geometry toF false L hT hS]

/-- Witness for C5: the demo ledge satisfies the well-formedness bounds and
its foreign-order decode has the same geometry as its native-order decode. -/
theorem byte_order_decode_geometry_witness :
    demoLedge.triangles.length < 32768 ∧ demoLedge.sizeDiv16 < 16777216 ∧
    (decodeLedge toFZ true (encLedge true demoLedge)).map
        (fun H => (H.points, H.indices, H.materials)) =
      (decodeLedge toFZ false (encLedge false demoLedge)).map
        (fun H => (H.points, H.indices, H.materials)) :=
  ⟨by decide, by decide,
    (byte_order_decode_geometry toFZ demoLedge (by decide) (by decide)).1⟩
